import Mathlib

/-!
Shallow embedding of the `spidriver` and `spidriver-hal` crates.

The protocol engine (`spidriver/src/lib.rs`) owns a `Channel` made of a
serial writer and a serial reader.  We model the channel as a state that
records the observable events on the wire (bytes written, flushes, bytes
read) together with three "behavior scripts" that decide, call by call,
whether the underlying transport succeeds or fails and what bytes are
read back.  An empty script means every further call succeeds (reads
return byte 0).  Quantifying over the scripts quantifies over the
behaviors of the underlying transport.
-/

namespace SpiDriver

/-- A byte on the serial wire, kept abstract as a natural number; the code
only ever sends values below 256 (`0xc0 - 1 + len` with `len ≤ 64` is at
most `0xff`). -/
abbrev Byte := Nat

/-- One observable event on the serial channel: a byte accepted by the
transmit side, a flush of the transmit side, or a byte obtained from the
receive side. -/
inductive Ev where
  | tx (b : Byte)
  | flush
  | rx (b : Byte)
deriving DecidableEq, Repr

/-- `Error` from `spidriver/src/lib.rs`: the four error variants of the
protocol engine, with the transport causes kept as type parameters like
the Rust `TXErr`/`RXErr` generics. -/
inductive Error (ε ρ : Type) where
  | Protocol : Error ε ρ
  | Request : Error ε ρ
  | Write (cause : ε) : Error ε ρ
  | Read (cause : ρ) : Error ε ρ
deriving DecidableEq, Repr

/-- `Error::tx` — wrap a transmit-side transport error. -/
def Error.tx {ε ρ : Type} (got : ε) : Error ε ρ := Error.Write got

/-- `Error::rx` — wrap a receive-side transport error. -/
def Error.rx {ε ρ : Type} (got : ρ) : Error ε ρ := Error.Read got

instance {σ α : Type} [DecidableEq σ] [DecidableEq α] : DecidableEq (Except σ α) := fun a b =>
  match a, b with
  | Except.ok x, Except.ok y =>
    if h : x = y then isTrue (by rw [h]) else isFalse (by intro hc; cases hc; exact h rfl)
  | Except.error x, Except.error y =>
    if h : x = y then isTrue (by rw [h]) else isFalse (by intro hc; cases hc; exact h rfl)
  | Except.ok _, Except.error _ => isFalse (by intro hc; cases hc)
  | Except.error _, Except.ok _ => isFalse (by intro hc; cases hc)

/-- The `Channel` of `spidriver/src/lib.rs`, modelled as the wire log so
far plus the remaining behavior scripts of the underlying serial
transport: `txs` gives the outcome of each successive transmit-byte call
(`none` = accepted), `fls` the outcome of each successive flush, `rxs`
the outcome of each successive read.  A script that has run out means
the transport keeps succeeding (reads returning 0). -/
structure Channel (ε ρ : Type) where
  log : List Ev
  txs : List (Option ε)
  fls : List (Option ε)
  rxs : List (Except ρ Byte)
deriving DecidableEq, Repr

/-- `Channel::write`: blocking write of one byte; on transport failure the
byte is not emitted and the error is wrapped as `Error::Write`. -/
def Channel.write {ε ρ : Type} (c : Channel ε ρ) (b : Byte) :
    Except (Error ε ρ) Unit × Channel ε ρ :=
  match c.txs with
  | [] => (Except.ok (), { c with log := c.log ++ [Ev.tx b] })
  | none :: rest => (Except.ok (), { c with log := c.log ++ [Ev.tx b], txs := rest })
  | some e :: rest => (Except.error (Error.tx e), { c with txs := rest })

/-- `Channel::flush`: blocking flush of the transmit side; failures are
wrapped as `Error::Write`. -/
def Channel.flush {ε ρ : Type} (c : Channel ε ρ) :
    Except (Error ε ρ) Unit × Channel ε ρ :=
  match c.fls with
  | [] => (Except.ok (), { c with log := c.log ++ [Ev.flush] })
  | none :: rest => (Except.ok (), { c with log := c.log ++ [Ev.flush], fls := rest })
  | some e :: rest => (Except.error (Error.tx e), { c with fls := rest })

/-- `Channel::read`: blocking read of one byte; failures are wrapped as
`Error::Read`. -/
def Channel.read {ε ρ : Type} (c : Channel ε ρ) :
    Except (Error ε ρ) Byte × Channel ε ρ :=
  match c.rxs with
  | [] => (Except.ok 0, { c with log := c.log ++ [Ev.rx 0] })
  | Except.ok b :: rest => (Except.ok b, { c with log := c.log ++ [Ev.rx b], rxs := rest })
  | Except.error e :: rest => (Except.error (Error.rx e), { c with rxs := rest })

/-!
The `SPIDriver` struct holds exactly one `Channel` and nothing else, so
each method is modelled as a function from the channel state (plus the
method arguments) to a result paired with the new channel state, the `?`
operator becoming a short-circuit on the error component.
-/

namespace SPIDriver

variable {ε ρ : Type}

/-- `SPIDriver::echo`: send `'e'`, the byte, flush, then read and return
one byte. -/
def echo (c : Channel ε ρ) (ch : Byte) : Except (Error ε ρ) Byte × Channel ε ρ :=
  match Channel.write c 101 with
  | (Except.error e, c1) => (Except.error e, c1)
  | (Except.ok _, c1) =>
    match Channel.write c1 ch with
    | (Except.error e, c2) => (Except.error e, c2)
    | (Except.ok _, c2) =>
      match Channel.flush c2 with
      | (Except.error e, c3) => (Except.error e, c3)
      | (Except.ok _, c3) => Channel.read c3

/-- `SPIDriver::select`: send `'s'` and flush. -/
def select (c : Channel ε ρ) : Except (Error ε ρ) Unit × Channel ε ρ :=
  match Channel.write c 115 with
  | (Except.error e, c1) => (Except.error e, c1)
  | (Except.ok _, c1) => Channel.flush c1

/-- `SPIDriver::unselect`: send `'u'` and flush. -/
def unselect (c : Channel ε ρ) : Except (Error ε ρ) Unit × Channel ε ρ :=
  match Channel.write c 117 with
  | (Except.error e, c1) => (Except.error e, c1)
  | (Except.ok _, c1) => Channel.flush c1

/-- `SPIDriver::set_a`: send `'a'` then `'1'`/`'0'`, and flush. -/
def set_a (c : Channel ε ρ) (high : Bool) : Except (Error ε ρ) Unit × Channel ε ρ :=
  match Channel.write c 97 with
  | (Except.error e, c1) => (Except.error e, c1)
  | (Except.ok _, c1) =>
    match Channel.write c1 (if high then 49 else 48) with
    | (Except.error e, c2) => (Except.error e, c2)
    | (Except.ok _, c2) => Channel.flush c2

/-- `SPIDriver::set_b`: send `'b'` then `'1'`/`'0'`, and flush. -/
def set_b (c : Channel ε ρ) (high : Bool) : Except (Error ε ρ) Unit × Channel ε ρ :=
  match Channel.write c 98 with
  | (Except.error e, c1) => (Except.error e, c1)
  | (Except.ok _, c1) =>
    match Channel.write c1 (if high then 49 else 48) with
    | (Except.error e, c2) => (Except.error e, c2)
    | (Except.ok _, c2) => Channel.flush c2

/-- `SPIDriver::disconnect`: send `'x'`, no flush. -/
def disconnect (c : Channel ε ρ) : Except (Error ε ρ) Unit × Channel ε ρ :=
  Channel.write c 120

/-- The payload loop `for c in data { self.ch.write(*c)?; }` common to
`write` and `transfer`. -/
def writeBytes (c : Channel ε ρ) : List Byte → Except (Error ε ρ) Unit × Channel ε ρ
  | [] => (Except.ok (), c)
  | b :: rest =>
    match Channel.write c b with
    | (Except.error e, c1) => (Except.error e, c1)
    | (Except.ok _, c1) => writeBytes c1 rest

/-- The response loop `for i in 0..data.len() { data[i] = self.ch.read()?; }`
of `transfer`: walks the buffer, replacing each position in turn by a
byte read from the channel; on a read failure the untouched suffix of
the buffer keeps its original bytes.  Returns the result, the channel,
and the final buffer contents. -/
def readBytes (c : Channel ε ρ) : List Byte →
    Except (Error ε ρ) Unit × Channel ε ρ × List Byte
  | [] => (Except.ok (), c, [])
  | b :: rest =>
    match Channel.read c with
    | (Except.error e, c1) => (Except.error e, c1, b :: rest)
    | (Except.ok v, c1) =>
      match readBytes c1 rest with
      | (r, c2, bs) => (r, c2, v :: bs)

/-- `SPIDriver::write`: empty payload is a no-op success; payloads longer
than 64 fail with `Request` before anything is sent; otherwise the
control byte `0xc0 - 1 + len` is sent followed by the payload bytes. -/
def write (c : Channel ε ρ) (data : List Byte) :
    Except (Error ε ρ) Unit × Channel ε ρ :=
  if data.length = 0 then (Except.ok (), c)
  else if data.length > 64 then (Except.error Error.Request, c)
  else
    match Channel.write c (0xc0 - 1 + data.length) with
    | (Except.error e, c1) => (Except.error e, c1)
    | (Except.ok _, c1) => writeBytes c1 data

/-- `SPIDriver::transfer`: empty payload is a no-op success returning the
same buffer; payloads longer than 64 fail with `Request`; otherwise the
control byte `0x80 - 1 + len` is sent, then the payload, then `len`
response bytes are read into the buffer, which is returned.  The third
component is the final buffer contents (which the Rust code mutates in
place and whose backing array the `Ok` slice shares). -/
def transfer (c : Channel ε ρ) (data : List Byte) :
    Except (Error ε ρ) (List Byte) × Channel ε ρ × List Byte :=
  if data.length = 0 then (Except.ok data, c, data)
  else if data.length > 64 then (Except.error Error.Request, c, data)
  else
    match Channel.write c (0x80 - 1 + data.length) with
    | (Except.error e, c1) => (Except.error e, c1, data)
    | (Except.ok _, c1) =>
      match writeBytes c1 data with
      | (Except.error e, c2) => (Except.error e, c2, data)
      | (Except.ok _, c2) =>
        match readBytes c2 data with
        | (Except.error e, c3, buf) => (Except.error e, c3, buf)
        | (Except.ok _, c3, buf) => (Except.ok buf, c3, buf)

/-- `SPIDriver::write_byte`: send the fixed control byte `0xc0` then the
byte. -/
def write_byte (c : Channel ε ρ) (b : Byte) :
    Except (Error ε ρ) Unit × Channel ε ρ :=
  match Channel.write c 0xc0 with
  | (Except.error e, c1) => (Except.error e, c1)
  | (Except.ok _, c1) => Channel.write c1 b

end SPIDriver

/-- Outcome of a pin operation at the embedded-hal `OutputPin` layer.
Rust panics are modelled explicitly, because `hal.rs` implements the chip
select pin operations with `panic!` bodies; a panicking operation never
returns and never touches the channel. -/
inductive PinOutcome (ε ρ : Type) where
  | done (r : Except (Error ε ρ) Unit) (c : Channel ε ρ)
  | panicked (msg : String)
deriving DecidableEq, Repr

namespace SPIDriverHAL

/-- `Comms::set_cs for SPIDriverHAL` in `spidriver-hal/src/lib.rs`:
SPI chip select is active low, so `high` maps to `unselect` and low to
`select`. -/
def set_cs {ε ρ : Type} (c : Channel ε ρ) (high : Bool) :
    Except (Error ε ρ) Unit × Channel ε ρ :=
  if high then SPIDriver.unselect c else SPIDriver.select c

/-- `Comms::set_a for SPIDriverHAL`: forwards to the engine. -/
def set_a {ε ρ : Type} (c : Channel ε ρ) (high : Bool) :
    Except (Error ε ρ) Unit × Channel ε ρ :=
  SPIDriver.set_a c high

/-- `Comms::set_b for SPIDriverHAL`: forwards to the engine. -/
def set_b {ε ρ : Type} (c : Channel ε ρ) (high : Bool) :
    Except (Error ε ρ) Unit × Channel ε ρ :=
  SPIDriver.set_b c high

/-- `Comms::write for SPIDriverHAL`: the `while remain.len() > 0` loop
splits `data` into successive chunks of at most 64 bytes and issues
`SPIDriver::write` once per chunk, in order, propagating the first
failure. -/
def write {ε ρ : Type} (c : Channel ε ρ) (data : List Byte) :
    Except (Error ε ρ) Unit × Channel ε ρ :=
  if _h : data.length = 0 then (Except.ok (), c)
  else
    let len := if data.length > 64 then 64 else data.length
    match SPIDriver.write c (data.take len) with
    | (Except.error e, c1) => (Except.error e, c1)
    | (Except.ok _, c1) => write c1 (data.drop len)
termination_by data.length
decreasing_by
  simp only [List.length_drop]
  split <;> omega

/-- `Comms::transfer for SPIDriverHAL`: same chunking loop, issuing
`SPIDriver::transfer` per chunk; each chunk of the buffer is replaced in
place by that chunk's response bytes, and the loop stops at the first
failure, leaving the later chunks untouched.  The third component is the
final buffer contents. -/
def transfer {ε ρ : Type} (c : Channel ε ρ) (data : List Byte) :
    Except (Error ε ρ) Unit × Channel ε ρ × List Byte :=
  if _h : data.length = 0 then (Except.ok (), c, data)
  else
    let len := if data.length > 64 then 64 else data.length
    match SPIDriver.transfer c (data.take len) with
    | (Except.error e, c1, buf) => (Except.error e, c1, buf ++ data.drop len)
    | (Except.ok _, c1, buf) =>
      match transfer c1 (data.drop len) with
      | (r, c2, buf2) => (r, c2, buf ++ buf2)
termination_by data.length
decreasing_by
  simp only [List.length_drop]
  split <;> omega

end SPIDriverHAL

namespace CS

/-- `gpiov2::OutputPin for CS`, method `set_low`, in
`spidriver-hal/src/hal.rs`: the body is literally a panic with message
"not yet"; the channel is never touched and no bytes are emitted. -/
def set_low {ε ρ : Type} (_c : Channel ε ρ) : PinOutcome ε ρ :=
  PinOutcome.panicked "not yet"

/-- `gpiov2::OutputPin for CS`, method `set_high`, in
`spidriver-hal/src/hal.rs`: likewise a panic with message "not yet". -/
def set_high {ε ρ : Type} (_c : Channel ε ρ) : PinOutcome ε ρ :=
  PinOutcome.panicked "not yet"

end CS

/-!
Spec-side definitions, used only as refinement targets: they follow the
words of the specification (chunks of at most 64 bytes; a write frame is
the control byte `0xC0 + len - 1` followed by the payload; a transfer
frame is `0x80 + len - 1`, the payload, then `len` response bytes), not
the code, and the theorems below compare the code against them.
-/

/-- The successive at-most-64-byte chunks of a buffer, per the spec's
chunking discipline. -/
def chunksSpec (data : List Byte) : List (List Byte) :=
  if _h : data.length = 0 then []
  else data.take 64 :: chunksSpec (data.drop 64)
termination_by data.length
decreasing_by
  simp only [List.length_drop]
  omega

/-- The wire events of one write frame for a nonempty chunk, per the
spec: control byte `0xC0 + len - 1` then the payload bytes. -/
def writeFrameEvents (chunk : List Byte) : List Ev :=
  Ev.tx (0xc0 - 1 + chunk.length) :: chunk.map Ev.tx

/-- The wire events of the whole chunked write of a buffer, per the
spec: one write frame per chunk, in order. -/
def writeFramesSpec (data : List Byte) : List Ev :=
  ((chunksSpec data).map writeFrameEvents).flatten

/-- The wire events of the chunked transfer of a buffer given the list
`rs` of bytes the device sends back, per the spec: for each chunk, the
control byte `0x80 + len - 1`, the chunk's payload bytes, then that
chunk's `len` response bytes. -/
def transferFramesSpec (data rs : List Byte) : List Ev :=
  if _h : data.length = 0 then []
  else
    let len := if data.length > 64 then 64 else data.length
    (Ev.tx (0x80 - 1 + len) :: (data.take len).map Ev.tx
        ++ (rs.take len).map Ev.rx)
      ++ transferFramesSpec (data.drop len) (rs.drop len)
termination_by data.length
decreasing_by
  simp only [List.length_drop]
  split <;> omega

/-!
Helper lemmas about the channel primitives and the two loops of the
protocol engine.
-/

theorem Channel.write_ok {ε ρ : Type} (c : Channel ε ρ) (b : Byte) (h : c.txs = []) :
    Channel.write c b = (Except.ok (), { c with log := c.log ++ [Ev.tx b] }) := by
  unfold Channel.write
  rw [h]

theorem Channel.flush_ok {ε ρ : Type} (c : Channel ε ρ) (h : c.fls = []) :
    Channel.flush c = (Except.ok (), { c with log := c.log ++ [Ev.flush] }) := by
  unfold Channel.flush
  rw [h]

theorem Channel.read_ok {ε ρ : Type} (c : Channel ε ρ) (b : Byte)
    (rest : List (Except ρ Byte)) (h : c.rxs = Except.ok b :: rest) :
    Channel.read c = (Except.ok b, { c with log := c.log ++ [Ev.rx b], rxs := rest }) := by
  unfold Channel.read
  rw [h]

theorem Channel.read_err {ε ρ : Type} (c : Channel ε ρ) (er : ρ)
    (rest : List (Except ρ Byte)) (h : c.rxs = Except.error er :: rest) :
    Channel.read c = (Except.error (Error.Read er), { c with rxs := rest }) := by
  unfold Channel.read
  rw [h]
  rfl

theorem writeBytes_ok {ε ρ : Type} :
    ∀ (p : List Byte) (c : Channel ε ρ), c.txs = [] →
    SPIDriver.writeBytes c p = (Except.ok (), { c with log := c.log ++ p.map Ev.tx }) := by
  intro p
  induction p with
  | nil => intro c _h; simp [SPIDriver.writeBytes]
  | cons b rest ih =>
    intro c h
    obtain ⟨lg, txs, fls, rxs⟩ := c
    simp only at h
    subst h
    simp [SPIDriver.writeBytes, Channel.write, ih]

theorem readBytes_ok {ε ρ : Type} :
    ∀ (q rs : List Byte) (rest : List (Except ρ Byte)) (c : Channel ε ρ),
    c.rxs = rs.map Except.ok ++ rest → rs.length = q.length →
    SPIDriver.readBytes c q =
      (Except.ok (), { c with log := c.log ++ rs.map Ev.rx, rxs := rest }, rs) := by
  intro q
  induction q with
  | nil =>
    intro rs rest c h hl
    have hrs : rs = [] := by
      cases rs with
      | nil => rfl
      | cons _ _ => simp at hl
    subst hrs
    obtain ⟨lg, txs, fls, rxs⟩ := c
    simp only at h
    simp at h
    subst h
    simp [SPIDriver.readBytes]
  | cons b q ih =>
    intro rs rest c h hl
    cases rs with
    | nil => simp at hl
    | cons r rs =>
      simp at hl
      obtain ⟨lg, txs, fls, rxs⟩ := c
      simp only at h
      subst h
      simp [SPIDriver.readBytes, Channel.read, ih rs rest, hl]

theorem readBytes_err {ε ρ : Type} :
    ∀ (q rs : List Byte) (er : ρ) (rest : List (Except ρ Byte)) (c : Channel ε ρ),
    c.rxs = rs.map Except.ok ++ Except.error er :: rest → rs.length < q.length →
    SPIDriver.readBytes c q =
      (Except.error (Error.Read er),
       { c with log := c.log ++ rs.map Ev.rx, rxs := rest },
       rs ++ q.drop rs.length) := by
  intro q
  induction q with
  | nil => intro rs er rest c _h hl; simp at hl
  | cons b q ih =>
    intro rs er rest c h hl
    cases rs with
    | nil =>
      obtain ⟨lg, txs, fls, rxs⟩ := c
      simp only at h
      simp at h
      subst h
      simp [SPIDriver.readBytes, Channel.read, Error.rx]
    | cons r rs =>
      simp at hl
      obtain ⟨lg, txs, fls, rxs⟩ := c
      simp only at h
      subst h
      simp [SPIDriver.readBytes, Channel.read, ih rs er rest, hl]

theorem writeBytes_single {ε ρ : Type} (c : Channel ε ρ) (b : Byte) :
    SPIDriver.writeBytes c [b] = Channel.write c b := by
  rw [SPIDriver.writeBytes]
  rcases h : Channel.write c b with ⟨r, c1⟩
  rcases r with e | u
  · rfl
  · simp [SPIDriver.writeBytes]

theorem write_spec {ε ρ : Type} (c : Channel ε ρ) (p : List Byte) (htx : c.txs = [])
    (hl : p.length ≤ 64) :
    SPIDriver.write c p =
      (Except.ok (), { c with log := c.log ++
        (if p.length = 0 then [] else Ev.tx (0xc0 - 1 + p.length) :: p.map Ev.tx) }) := by
  obtain ⟨lg, txs, fls, rxs⟩ := c
  simp only at htx
  subst htx
  by_cases h0 : p.length = 0
  · simp [SPIDriver.write, h0]
  · have h64 : ¬ p.length > 64 := by omega
    simp [SPIDriver.write, h0, h64, Channel.write, writeBytes_ok p]

theorem transfer_spec {ε ρ : Type} (c : Channel ε ρ) (p rs : List Byte)
    (rest : List (Except ρ Byte)) (htx : c.txs = []) (hrx : c.rxs = rs.map Except.ok ++ rest)
    (hl : p.length ≤ 64) (hrs : rs.length = p.length) :
    SPIDriver.transfer c p =
      (Except.ok rs,
       { c with
         log := c.log ++ (if p.length = 0 then []
           else Ev.tx (0x80 - 1 + p.length) :: (p.map Ev.tx ++ rs.map Ev.rx)),
         rxs := rest },
       rs) := by
  obtain ⟨lg, txs, fls, rxs⟩ := c
  simp only at htx hrx
  subst htx
  subst hrx
  by_cases h0 : p.length = 0
  · have hp : p = [] := List.eq_nil_of_length_eq_zero h0
    have hr : rs = [] := by
      rw [hp] at hrs
      exact List.eq_nil_of_length_eq_zero (by simpa using hrs)
    subst hp
    subst hr
    simp [SPIDriver.transfer]
  · have h64 : ¬ p.length > 64 := by omega
    simp [SPIDriver.transfer, h0, h64, Channel.write, writeBytes_ok p,
      readBytes_ok p rs rest, hrs]

theorem transfer_read_err_spec {ε ρ : Type} (c : Channel ε ρ) (p received : List Byte)
    (er : ρ) (rest : List (Except ρ Byte)) (htx : c.txs = [])
    (hrx : c.rxs = received.map Except.ok ++ Except.error er :: rest)
    (h1 : 1 ≤ p.length) (hl : p.length ≤ 64) (hrecv : received.length < p.length) :
    SPIDriver.transfer c p =
      (Except.error (Error.Read er),
       { c with
         log := c.log ++ (Ev.tx (0x80 - 1 + p.length) :: (p.map Ev.tx ++ received.map Ev.rx)),
         rxs := rest },
       received ++ p.drop received.length) := by
  obtain ⟨lg, txs, fls, rxs⟩ := c
  simp only at htx hrx
  subst htx
  subst hrx
  have h0 : ¬ p.length = 0 := by omega
  have h64 : ¬ p.length > 64 := by omega
  simp [SPIDriver.transfer, h0, h64, Channel.write, writeBytes_ok p,
    readBytes_err p received er rest, hrecv]

/-!
Claim theorems for the protocol engine.
-/

/-- C1: for every payload `p` with `0 ≤ len(p) ≤ 64` and a transmit side
that accepts every byte, `SPIDriver::write p` succeeds and appends to the
wire exactly the control byte `0xC0 + len(p) - 1` followed by the bytes
of `p` verbatim in that order — and appends nothing at all when
`len(p) = 0`, still returning success. -/
theorem C1_write_frame {ε ρ : Type} (c : Channel ε ρ) (p : List Byte)
    (htx : c.txs = []) (hl : p.length ≤ 64) :
    SPIDriver.write c p =
      (Except.ok (), { c with log := c.log ++
        (if p.length = 0 then [] else Ev.tx (0xc0 - 1 + p.length) :: p.map Ev.tx) }) :=
  write_spec c p htx hl

theorem C1_witness :
    (⟨[], [], [], []⟩ : Channel Unit Unit).txs = [] ∧ ([1, 2, 3] : List Byte).length ≤ 64 ∧
    SPIDriver.write (⟨[], [], [], []⟩ : Channel Unit Unit) [1, 2, 3] =
      (Except.ok (), ⟨[Ev.tx 194, Ev.tx 1, Ev.tx 2, Ev.tx 3], [], [], []⟩) := by
  refine ⟨rfl, by decide, ?_⟩
  rw [C1_write_frame (⟨[], [], [], []⟩ : Channel Unit Unit) [1, 2, 3] rfl (by decide)]
  decide

/-- C2: for every payload `p` with `0 ≤ len(p) ≤ 64`, a transmit side
that accepts every byte, and a device that answers the reads with the
bytes `rs` (one per payload byte), `SPIDriver::transfer p` emits the
transfer-frame header `0x80 + len(p) - 1` and then `p`, then consumes
exactly `len(p)` response bytes, overwrites the buffer positions in
order with those bytes, and returns that same buffer, whose length
equals the input length; for `len(p) = 0` it is a no-op success
returning the same empty buffer. -/
theorem C2_transfer_roundtrip {ε ρ : Type} (c : Channel ε ρ) (p rs : List Byte)
    (rest : List (Except ρ Byte)) (htx : c.txs = []) (hrx : c.rxs = rs.map Except.ok ++ rest)
    (hl : p.length ≤ 64) (hrs : rs.length = p.length) :
    SPIDriver.transfer c p =
      (Except.ok rs,
       { c with
         log := c.log ++ (if p.length = 0 then []
           else Ev.tx (0x80 - 1 + p.length) :: (p.map Ev.tx ++ rs.map Ev.rx)),
         rxs := rest },
       rs) :=
  transfer_spec c p rs rest htx hrx hl hrs

theorem C2_witness :
    (⟨[], [], [], [Except.ok 7, Except.ok 8]⟩ : Channel Unit Unit).txs = [] ∧
    (⟨[], [], [], [Except.ok 7, Except.ok 8]⟩ : Channel Unit Unit).rxs =
      ([7, 8] : List Byte).map Except.ok ++ [] ∧
    ([5, 6] : List Byte).length ≤ 64 ∧ ([7, 8] : List Byte).length = ([5, 6] : List Byte).length ∧
    SPIDriver.transfer (⟨[], [], [], [Except.ok 7, Except.ok 8]⟩ : Channel Unit Unit) [5, 6] =
      (Except.ok [7, 8],
       ⟨[Ev.tx 129, Ev.tx 5, Ev.tx 6, Ev.rx 7, Ev.rx 8], [], [], []⟩, [7, 8]) := by
  refine ⟨rfl, by decide, by decide, by decide, ?_⟩
  rw [C2_transfer_roundtrip (⟨[], [], [], [Except.ok 7, Except.ok 8]⟩ : Channel Unit Unit)
    [5, 6] [7, 8] [] rfl (by decide) (by decide) (by decide)]
  decide

/-- C3: for every payload `p` with `len(p) > 64`, both `SPIDriver::write`
and `SPIDriver::transfer` return the `Request` error — which carries no
transport cause — and leave the channel state completely unchanged,
emitting zero bytes. -/
theorem C3_oversize_request {ε ρ : Type} (c : Channel ε ρ) (p : List Byte)
    (h : p.length > 64) :
    SPIDriver.write c p = (Except.error Error.Request, c) ∧
    SPIDriver.transfer c p = (Except.error Error.Request, c, p) := by
  constructor
  · rw [SPIDriver.write, if_neg (by omega), if_pos h]
  · rw [SPIDriver.transfer, if_neg (by omega), if_pos h]

theorem C3_witness :
    (List.replicate 65 (0 : Byte)).length > 64 ∧
    (SPIDriver.write (⟨[], [], [], []⟩ : Channel Unit Unit) (List.replicate 65 0) =
        (Except.error Error.Request, ⟨[], [], [], []⟩) ∧
      SPIDriver.transfer (⟨[], [], [], []⟩ : Channel Unit Unit) (List.replicate 65 0) =
        (Except.error Error.Request, ⟨[], [], [], []⟩, List.replicate 65 0)) :=
  ⟨by decide, C3_oversize_request (⟨[], [], [], []⟩ : Channel Unit Unit)
    (List.replicate 65 0) (by decide)⟩

/-- C6: for every byte `b` and every channel state, `SPIDriver::write_byte b`
computes exactly the same result as `SPIDriver::write [b]`; and when the
transmit side accepts every byte, both emit exactly the two bytes `0xC0`
then `b` on the channel. -/
theorem C6_write_byte_equiv {ε ρ : Type} (c : Channel ε ρ) (b : Byte) :
    SPIDriver.write_byte c b = SPIDriver.write c [b] ∧
    (c.txs = [] → SPIDriver.write_byte c b =
      (Except.ok (), { c with log := c.log ++ [Ev.tx 0xc0, Ev.tx b] })) := by
  constructor
  · rw [SPIDriver.write, if_neg (by simp), if_neg (by simp)]
    have h192 : (0xc0 : Nat) - 1 + ([b] : List Byte).length = 0xc0 := by simp
    rw [h192, SPIDriver.write_byte]
    rcases h : Channel.write c 0xc0 with ⟨r, c1⟩
    rcases r with e | u
    · rfl
    · exact (writeBytes_single c1 b).symm
  · intro htx
    obtain ⟨lg, txs, fls, rxs⟩ := c
    simp only at htx
    subst htx
    simp [SPIDriver.write_byte, Channel.write]

theorem C6_witness :
    SPIDriver.write_byte (⟨[], [], [], []⟩ : Channel Unit Unit) 9 =
        SPIDriver.write (⟨[], [], [], []⟩ : Channel Unit Unit) [9] ∧
      ((⟨[], [], [], []⟩ : Channel Unit Unit).txs = [] ∧
        SPIDriver.write_byte (⟨[], [], [], []⟩ : Channel Unit Unit) 9 =
          (Except.ok (), ⟨[Ev.tx 192, Ev.tx 9], [], [], []⟩)) := by
  refine ⟨(C6_write_byte_equiv (⟨[], [], [], []⟩ : Channel Unit Unit) 9).1, rfl, ?_⟩
  rw [(C6_write_byte_equiv (⟨[], [], [], []⟩ : Channel Unit Unit) 9).2 rfl]
  decide

/-- C7: for every byte `b`, with a transport whose transmit and flush
sides succeed and whose next read yields `r`, `SPIDriver::echo b` sends
the byte `'e'` then `b`, flushes the channel, then reads exactly one
byte from the channel and returns that byte `r` verbatim as its success
value. -/
theorem C7_echo_roundtrip {ε ρ : Type} (c : Channel ε ρ) (b r : Byte)
    (rest : List (Except ρ Byte)) (htx : c.txs = []) (hfl : c.fls = [])
    (hrx : c.rxs = Except.ok r :: rest) :
    SPIDriver.echo c b =
      (Except.ok r,
       { c with log := c.log ++ [Ev.tx 101, Ev.tx b, Ev.flush, Ev.rx r], rxs := rest }) := by
  obtain ⟨lg, txs, fls, rxs⟩ := c
  simp only at htx hfl hrx
  subst htx
  subst hfl
  subst hrx
  simp [SPIDriver.echo, Channel.write, Channel.flush, Channel.read]

theorem C7_witness :
    (⟨[], [], [], [Except.ok 0x42]⟩ : Channel Unit Unit).txs = [] ∧
    (⟨[], [], [], [Except.ok 0x42]⟩ : Channel Unit Unit).fls = [] ∧
    (⟨[], [], [], [Except.ok 0x42]⟩ : Channel Unit Unit).rxs = Except.ok 0x42 :: [] ∧
    SPIDriver.echo (⟨[], [], [], [Except.ok 0x42]⟩ : Channel Unit Unit) 0x42 =
      (Except.ok 0x42, ⟨[Ev.tx 101, Ev.tx 0x42, Ev.flush, Ev.rx 0x42], [], [], []⟩) := by
  refine ⟨rfl, rfl, rfl, ?_⟩
  rw [C7_echo_roundtrip (⟨[], [], [], [Except.ok 0x42]⟩ : Channel Unit Unit) 0x42 0x42 []
    rfl rfl rfl]
  decide

/-- C8: with a transport whose transmit and flush sides succeed, calling
`SPIDriver::select` and then `SPIDriver::unselect` emits the byte `'s'`
then the byte `'u'`, each immediately followed by a flush event, with no
payload bytes and no bytes read. -/
theorem C8_select_unselect {ε ρ : Type} (c : Channel ε ρ) (htx : c.txs = [])
    (hfl : c.fls = []) :
    SPIDriver.select c = (Except.ok (), { c with log := c.log ++ [Ev.tx 115, Ev.flush] }) ∧
    SPIDriver.unselect { c with log := c.log ++ [Ev.tx 115, Ev.flush] } =
      (Except.ok (),
       { c with log := c.log ++ [Ev.tx 115, Ev.flush, Ev.tx 117, Ev.flush] }) := by
  obtain ⟨lg, txs, fls, rxs⟩ := c
  simp only at htx hfl
  subst htx
  subst hfl
  constructor
  · simp [SPIDriver.select, Channel.write, Channel.flush]
  · simp [SPIDriver.unselect, Channel.write, Channel.flush]

theorem C8_witness :
    (⟨[], [], [], []⟩ : Channel Unit Unit).txs = [] ∧
    (⟨[], [], [], []⟩ : Channel Unit Unit).fls = [] ∧
    (SPIDriver.select (⟨[], [], [], []⟩ : Channel Unit Unit) =
        (Except.ok (), ⟨[Ev.tx 115, Ev.flush], [], [], []⟩) ∧
      SPIDriver.unselect (⟨[Ev.tx 115, Ev.flush], [], [], []⟩ : Channel Unit Unit) =
        (Except.ok (), ⟨[Ev.tx 115, Ev.flush, Ev.tx 117, Ev.flush], [], [], []⟩)) := by
  refine ⟨rfl, rfl, ?_⟩
  have h := C8_select_unselect (⟨[], [], [], []⟩ : Channel Unit Unit) rfl rfl
  constructor
  · rw [h.1]
    rfl
  · have h2 := h.2
    simpa using h2

/-- C10: `SPIDriver::transfer` writes all `len(p)` payload bytes to the
channel before reading any response byte; if the channel read fails
while reading response byte `i`, the operation returns a `Read` error
wrapping the transport cause, with buffer positions `0..i` holding the
already-received response bytes and positions `i..len(p)` still holding
the original payload — the buffer is partially modified, not restored,
on error. -/
theorem C10_transfer_phases {ε ρ : Type} (c : Channel ε ρ) (p received : List Byte)
    (er : ρ) (rest : List (Except ρ Byte)) (htx : c.txs = [])
    (hrx : c.rxs = received.map Except.ok ++ Except.error er :: rest)
    (h1 : 1 ≤ p.length) (hl : p.length ≤ 64) (hrecv : received.length < p.length) :
    SPIDriver.transfer c p =
      (Except.error (Error.Read er),
       { c with
         log := c.log ++ (Ev.tx (0x80 - 1 + p.length) :: (p.map Ev.tx ++ received.map Ev.rx)),
         rxs := rest },
       received ++ p.drop received.length) :=
  transfer_read_err_spec c p received er rest htx hrx h1 hl hrecv

theorem C10_witness :
    (⟨[], [], [], [Except.ok 7, Except.error ()]⟩ : Channel Unit Unit).txs = [] ∧
    (⟨[], [], [], [Except.ok 7, Except.error ()]⟩ : Channel Unit Unit).rxs =
      ([7] : List Byte).map Except.ok ++ Except.error () :: [] ∧
    1 ≤ ([10, 20, 30] : List Byte).length ∧ ([10, 20, 30] : List Byte).length ≤ 64 ∧
    ([7] : List Byte).length < ([10, 20, 30] : List Byte).length ∧
    SPIDriver.transfer (⟨[], [], [], [Except.ok 7, Except.error ()]⟩ : Channel Unit Unit)
        [10, 20, 30] =
      (Except.error (Error.Read ()),
       ⟨[Ev.tx 130, Ev.tx 10, Ev.tx 20, Ev.tx 30, Ev.rx 7], [], [], []⟩, [7, 20, 30]) := by
  refine ⟨rfl, by decide, by decide, by decide, by decide, ?_⟩
  rw [C10_transfer_phases (⟨[], [], [], [Except.ok 7, Except.error ()]⟩ : Channel Unit Unit)
    [10, 20, 30] [7] () [] rfl (by decide) (by decide) (by decide) (by decide)]
  decide

/-!
Result classification: every result an operation of the protocol engine
can produce.  `allowedResult` holds of a result that is a success or one
of `Request`, `Write(cause)`, `Read(cause)` — i.e. anything but
`Protocol`.
-/

def allowedResult {ε ρ α : Type} : Except (Error ε ρ) α → Prop
  | Except.ok _ => True
  | Except.error Error.Protocol => False
  | Except.error Error.Request => True
  | Except.error (Error.Write _) => True
  | Except.error (Error.Read _) => True

theorem allowedResult_of_ne {ε ρ α : Type} (r : Except (Error ε ρ) α)
    (h : r ≠ Except.error Error.Protocol) : allowedResult r := by
  cases r with
  | ok v => trivial
  | error e =>
    cases e with
    | Protocol => exact h rfl
    | Request => trivial
    | Write x => trivial
    | Read x => trivial

theorem Channel.write_cases {ε ρ : Type} (c : Channel ε ρ) (b : Byte) :
    (∃ c', Channel.write c b = (Except.ok (), c')) ∨
    (∃ x c', Channel.write c b = (Except.error (Error.Write x), c')) := by
  obtain ⟨lg, txs, fls, rxs⟩ := c
  cases txs with
  | nil => exact Or.inl ⟨_, rfl⟩
  | cons o rest =>
    cases o with
    | none => exact Or.inl ⟨_, rfl⟩
    | some x => exact Or.inr ⟨x, _, rfl⟩

theorem Channel.flush_cases {ε ρ : Type} (c : Channel ε ρ) :
    (∃ c', Channel.flush c = (Except.ok (), c')) ∨
    (∃ x c', Channel.flush c = (Except.error (Error.Write x), c')) := by
  obtain ⟨lg, txs, fls, rxs⟩ := c
  cases fls with
  | nil => exact Or.inl ⟨_, rfl⟩
  | cons o rest =>
    cases o with
    | none => exact Or.inl ⟨_, rfl⟩
    | some x => exact Or.inr ⟨x, _, rfl⟩

theorem Channel.read_cases {ε ρ : Type} (c : Channel ε ρ) :
    (∃ v c', Channel.read c = (Except.ok v, c')) ∨
    (∃ x c', Channel.read c = (Except.error (Error.Read x), c')) := by
  obtain ⟨lg, txs, fls, rxs⟩ := c
  cases rxs with
  | nil => exact Or.inl ⟨_, _, rfl⟩
  | cons o rest =>
    cases o with
    | error x => exact Or.inr ⟨x, _, rfl⟩
    | ok v => exact Or.inl ⟨v, _, rfl⟩

theorem writeBytes_cases {ε ρ : Type} :
    ∀ (p : List Byte) (c : Channel ε ρ),
    (∃ c', SPIDriver.writeBytes c p = (Except.ok (), c')) ∨
    (∃ x c', SPIDriver.writeBytes c p = (Except.error (Error.Write x), c')) := by
  intro p
  induction p with
  | nil => intro c; exact Or.inl ⟨c, rfl⟩
  | cons b rest ih =>
    intro c
    rcases Channel.write_cases c b with ⟨c1, h⟩ | ⟨x, c1, h⟩
    · rw [SPIDriver.writeBytes, h]
      exact ih c1
    · rw [SPIDriver.writeBytes, h]
      exact Or.inr ⟨x, c1, rfl⟩

theorem readBytes_cases {ε ρ : Type} :
    ∀ (q : List Byte) (c : Channel ε ρ),
    (∃ c' buf, SPIDriver.readBytes c q = (Except.ok (), c', buf)) ∨
    (∃ x c' buf, SPIDriver.readBytes c q = (Except.error (Error.Read x), c', buf)) := by
  intro q
  induction q with
  | nil => intro c; exact Or.inl ⟨c, [], rfl⟩
  | cons b rest ih =>
    intro c
    rcases Channel.read_cases c with ⟨v, c1, h⟩ | ⟨x, c1, h⟩
    · rw [SPIDriver.readBytes, h]
      rcases ih c1 with ⟨c2, buf, h2⟩ | ⟨x, c2, buf, h2⟩
      · exact Or.inl ⟨c2, v :: buf, by simp [h2]⟩
      · exact Or.inr ⟨x, c2, v :: buf, by simp [h2]⟩
    · rw [SPIDriver.readBytes, h]
      exact Or.inr ⟨x, c1, b :: rest, rfl⟩

theorem echo_no_protocol {ε ρ : Type} (c : Channel ε ρ) (b : Byte) :
    (SPIDriver.echo c b).1 ≠ Except.error Error.Protocol := by
  rw [SPIDriver.echo]
  rcases Channel.write_cases c 101 with ⟨c1, h1⟩ | ⟨x, c1, h1⟩ <;> simp only [h1]
  · rcases Channel.write_cases c1 b with ⟨c2, h2⟩ | ⟨x, c2, h2⟩ <;> simp only [h2]
    · rcases Channel.flush_cases c2 with ⟨c3, h3⟩ | ⟨x, c3, h3⟩ <;> simp only [h3]
      · rcases Channel.read_cases c3 with ⟨v, c4, h4⟩ | ⟨x, c4, h4⟩ <;> simp [h4]
      · simp
    · simp
  · simp

theorem select_no_protocol {ε ρ : Type} (c : Channel ε ρ) :
    (SPIDriver.select c).1 ≠ Except.error Error.Protocol := by
  rw [SPIDriver.select]
  rcases Channel.write_cases c 115 with ⟨c1, h1⟩ | ⟨x, c1, h1⟩ <;> simp only [h1]
  · rcases Channel.flush_cases c1 with ⟨c2, h2⟩ | ⟨x, c2, h2⟩ <;> simp [h2]
  · simp

theorem unselect_no_protocol {ε ρ : Type} (c : Channel ε ρ) :
    (SPIDriver.unselect c).1 ≠ Except.error Error.Protocol := by
  rw [SPIDriver.unselect]
  rcases Channel.write_cases c 117 with ⟨c1, h1⟩ | ⟨x, c1, h1⟩ <;> simp only [h1]
  · rcases Channel.flush_cases c1 with ⟨c2, h2⟩ | ⟨x, c2, h2⟩ <;> simp [h2]
  · simp

theorem set_a_no_protocol {ε ρ : Type} (c : Channel ε ρ) (hi : Bool) :
    (SPIDriver.set_a c hi).1 ≠ Except.error Error.Protocol := by
  rw [SPIDriver.set_a]
  rcases Channel.write_cases c 97 with ⟨c1, h1⟩ | ⟨x, c1, h1⟩ <;> simp only [h1]
  · rcases Channel.write_cases c1 (if hi then 49 else 48) with ⟨c2, h2⟩ | ⟨x, c2, h2⟩ <;>
      simp only [h2]
    · rcases Channel.flush_cases c2 with ⟨c3, h3⟩ | ⟨x, c3, h3⟩ <;> simp [h3]
    · simp
  · simp

theorem set_b_no_protocol {ε ρ : Type} (c : Channel ε ρ) (hi : Bool) :
    (SPIDriver.set_b c hi).1 ≠ Except.error Error.Protocol := by
  rw [SPIDriver.set_b]
  rcases Channel.write_cases c 98 with ⟨c1, h1⟩ | ⟨x, c1, h1⟩ <;> simp only [h1]
  · rcases Channel.write_cases c1 (if hi then 49 else 48) with ⟨c2, h2⟩ | ⟨x, c2, h2⟩ <;>
      simp only [h2]
    · rcases Channel.flush_cases c2 with ⟨c3, h3⟩ | ⟨x, c3, h3⟩ <;> simp [h3]
    · simp
  · simp

theorem disconnect_no_protocol {ε ρ : Type} (c : Channel ε ρ) :
    (SPIDriver.disconnect c).1 ≠ Except.error Error.Protocol := by
  rw [SPIDriver.disconnect]
  rcases Channel.write_cases c 120 with ⟨c1, h1⟩ | ⟨x, c1, h1⟩ <;> simp [h1]

theorem write_no_protocol {ε ρ : Type} (c : Channel ε ρ) (p : List Byte) :
    (SPIDriver.write c p).1 ≠ Except.error Error.Protocol := by
  rw [SPIDriver.write]
  by_cases h0 : p.length = 0
  · rw [if_pos h0]; simp
  · rw [if_neg h0]
    by_cases h64 : p.length > 64
    · rw [if_pos h64]; simp
    · rw [if_neg h64]
      rcases Channel.write_cases c (0xc0 - 1 + p.length) with ⟨c1, h1⟩ | ⟨x, c1, h1⟩ <;>
        simp only [h1]
      · rcases writeBytes_cases p c1 with ⟨c2, h2⟩ | ⟨x, c2, h2⟩ <;> simp [h2]
      · simp

theorem transfer_no_protocol {ε ρ : Type} (c : Channel ε ρ) (p : List Byte) :
    (SPIDriver.transfer c p).1 ≠ Except.error Error.Protocol := by
  rw [SPIDriver.transfer]
  by_cases h0 : p.length = 0
  · rw [if_pos h0]; simp
  · rw [if_neg h0]
    by_cases h64 : p.length > 64
    · rw [if_pos h64]; simp
    · rw [if_neg h64]
      rcases Channel.write_cases c (0x80 - 1 + p.length) with ⟨c1, h1⟩ | ⟨x, c1, h1⟩ <;>
        simp only [h1]
      · rcases writeBytes_cases p c1 with ⟨c2, h2⟩ | ⟨x, c2, h2⟩ <;> simp only [h2]
        · rcases readBytes_cases p c2 with ⟨c3, buf, h3⟩ | ⟨x, c3, buf, h3⟩ <;> simp [h3]
        · simp
      · simp

theorem write_byte_no_protocol {ε ρ : Type} (c : Channel ε ρ) (b : Byte) :
    (SPIDriver.write_byte c b).1 ≠ Except.error Error.Protocol := by
  rw [SPIDriver.write_byte]
  rcases Channel.write_cases c 0xc0 with ⟨c1, h1⟩ | ⟨x, c1, h1⟩ <;> simp only [h1]
  · rcases Channel.write_cases c1 b with ⟨c2, h2⟩ | ⟨x, c2, h2⟩ <;> simp [h2]
  · simp

/-- C9: no operation of the protocol engine (`echo`, `select`,
`unselect`, `set_a`, `set_b`, `disconnect`, `write`, `transfer`,
`write_byte`) ever returns the `Protocol` error variant: for every input
and every behavior of the underlying channel, the result is a success or
one of `Request`, `Write(cause)`, `Read(cause)`. -/
theorem C9_no_protocol {ε ρ : Type} :
    ∀ (c : Channel ε ρ) (b : Byte) (hi : Bool) (p q : List Byte),
      allowedResult (SPIDriver.echo c b).1 ∧
      allowedResult (SPIDriver.select c).1 ∧
      allowedResult (SPIDriver.unselect c).1 ∧
      allowedResult (SPIDriver.set_a c hi).1 ∧
      allowedResult (SPIDriver.set_b c hi).1 ∧
      allowedResult (SPIDriver.disconnect c).1 ∧
      allowedResult (SPIDriver.write c p).1 ∧
      allowedResult (SPIDriver.transfer c q).1 ∧
      allowedResult (SPIDriver.write_byte c b).1 :=
  fun c b hi p q =>
    ⟨allowedResult_of_ne _ (echo_no_protocol c b),
     allowedResult_of_ne _ (select_no_protocol c),
     allowedResult_of_ne _ (unselect_no_protocol c),
     allowedResult_of_ne _ (set_a_no_protocol c hi),
     allowedResult_of_ne _ (set_b_no_protocol c hi),
     allowedResult_of_ne _ (disconnect_no_protocol c),
     allowedResult_of_ne _ (write_no_protocol c p),
     allowedResult_of_ne _ (transfer_no_protocol c q),
     allowedResult_of_ne _ (write_byte_no_protocol c b)⟩

/-!
The chunking discipline of the adapter-trait layer.
-/

theorem take_min64 (data : List Byte) :
    data.take (if data.length > 64 then 64 else data.length) = data.take 64 := by
  by_cases h : data.length > 64
  · rw [if_pos h]
  · rw [if_neg h, List.take_length, List.take_of_length_le (by omega)]

theorem drop_min64 (data : List Byte) :
    data.drop (if data.length > 64 then 64 else data.length) = data.drop 64 := by
  by_cases h : data.length > 64
  · rw [if_pos h]
  · rw [if_neg h, List.drop_length, List.drop_of_length_le (by omega)]

theorem take_min64_of_eq (data rs : List Byte) (hrs : rs.length = data.length) :
    rs.take (if data.length > 64 then 64 else data.length) = rs.take 64 := by
  by_cases h : data.length > 64
  · rw [if_pos h]
  · rw [if_neg h, ← hrs, List.take_length, List.take_of_length_le (by omega)]

theorem drop_min64_of_eq (data rs : List Byte) (hrs : rs.length = data.length) :
    rs.drop (if data.length > 64 then 64 else data.length) = rs.drop 64 := by
  by_cases h : data.length > 64
  · rw [if_pos h]
  · rw [if_neg h, ← hrs, List.drop_length, List.drop_of_length_le (by omega)]

theorem length_take64 (data : List Byte) :
    (data.take 64).length = if data.length > 64 then 64 else data.length := by
  rw [List.length_take]
  by_cases h : data.length > 64
  · rw [if_pos h]; omega
  · rw [if_neg h]; omega

theorem chunksSpec_cons (data : List Byte) (h : ¬ data.length = 0) :
    chunksSpec data = data.take 64 :: chunksSpec (data.drop 64) := by
  rw [chunksSpec, dif_neg h]

theorem chunksSpec_flatten {n : Nat} :
    ∀ (data : List Byte), data.length ≤ n → (chunksSpec data).flatten = data := by
  induction n with
  | zero =>
    intro data hn
    have hd : data = [] := List.eq_nil_of_length_eq_zero (by omega)
    subst hd
    rw [chunksSpec]
    simp
  | succ n ih =>
    intro data hn
    by_cases h0 : data.length = 0
    · have hd : data = [] := List.eq_nil_of_length_eq_zero h0
      subst hd
      rw [chunksSpec]
      simp
    · rw [chunksSpec_cons data h0]
      rw [List.flatten_cons, ih (data.drop 64) (by simp only [List.length_drop]; omega)]
      exact List.take_append_drop 64 data

theorem chunksSpec_shape {n : Nat} :
    ∀ (data : List Byte), data.length ≤ n →
    ∀ ch ∈ chunksSpec data, ch ≠ [] ∧ ch.length ≤ 64 := by
  induction n with
  | zero =>
    intro data hn
    have hd : data = [] := List.eq_nil_of_length_eq_zero (by omega)
    subst hd
    rw [chunksSpec]
    simp
  | succ n ih =>
    intro data hn
    by_cases h0 : data.length = 0
    · have hd : data = [] := List.eq_nil_of_length_eq_zero h0
      subst hd
      rw [chunksSpec]
      simp
    · rw [chunksSpec_cons data h0]
      intro ch hch
      rcases List.mem_cons.mp hch with heq | hmem
      · subst heq
        constructor
        · intro hnil
          have hlen := congrArg List.length hnil
          rw [List.length_take] at hlen
          simp only [List.length_nil] at hlen
          omega
        · rw [List.length_take]
          omega
      · exact ih (data.drop 64) (by simp only [List.length_drop]; omega) ch hmem

theorem writeFramesSpec_nil : writeFramesSpec ([] : List Byte) = [] := by
  rw [writeFramesSpec, chunksSpec]
  simp

theorem writeFramesSpec_cons (data : List Byte) (h : ¬ data.length = 0) :
    writeFramesSpec data =
      writeFrameEvents (data.take 64) ++ writeFramesSpec (data.drop 64) := by
  rw [writeFramesSpec, writeFramesSpec, chunksSpec_cons data h]
  simp

theorem halWrite_frames {ε ρ : Type} {n : Nat} :
    ∀ (data : List Byte), data.length ≤ n → ∀ (c : Channel ε ρ), c.txs = [] →
    SPIDriverHAL.write c data =
      (Except.ok (), { c with log := c.log ++ writeFramesSpec data }) := by
  induction n with
  | zero =>
    intro data hn c htx
    have hd : data = [] := List.eq_nil_of_length_eq_zero (by omega)
    subst hd
    rw [SPIDriverHAL.write]
    simp [writeFramesSpec_nil]
  | succ n ih =>
    intro data hn c htx
    by_cases h0 : data.length = 0
    · have hd : data = [] := List.eq_nil_of_length_eq_zero h0
      subst hd
      rw [SPIDriverHAL.write]
      simp [writeFramesSpec_nil]
    · rw [SPIDriverHAL.write, dif_neg h0]
      have htake : (data.take 64).length ≤ 64 := by rw [List.length_take]; omega
      have htk0 : ¬ (data.take 64).length = 0 := by
        rw [List.length_take]
        omega
      simp only [take_min64, drop_min64]
      simp only [write_spec c (data.take 64) htx htake, if_neg htk0]
      rw [ih (data.drop 64) (by simp only [List.length_drop]; omega) _ (by simpa using htx)]
      rw [writeFramesSpec_cons data h0]
      simp [writeFrameEvents]

theorem transferFramesSpec_nil (rs : List Byte) :
    transferFramesSpec ([] : List Byte) rs = [] := by
  rw [transferFramesSpec]
  simp

theorem transferFramesSpec_cons (data rs : List Byte) (h : ¬ data.length = 0)
    (hrs : rs.length = data.length) :
    transferFramesSpec data rs =
      (Ev.tx (0x80 - 1 + (data.take 64).length) ::
        ((data.take 64).map Ev.tx ++ (rs.take 64).map Ev.rx))
      ++ transferFramesSpec (data.drop 64) (rs.drop 64) := by
  rw [transferFramesSpec, dif_neg h]
  simp only [take_min64, drop_min64, take_min64_of_eq data rs hrs,
    drop_min64_of_eq data rs hrs, length_take64]
  simp

theorem halTransfer_frames {ε ρ : Type} {n : Nat} :
    ∀ (data rs : List Byte), data.length ≤ n → rs.length = data.length →
    ∀ (c : Channel ε ρ), c.txs = [] → c.rxs = rs.map Except.ok →
    SPIDriverHAL.transfer c data =
      (Except.ok (),
       { c with log := c.log ++ transferFramesSpec data rs, rxs := [] }, rs) := by
  induction n with
  | zero =>
    intro data rs hn hrs c htx hrx
    have hd : data = [] := List.eq_nil_of_length_eq_zero (by omega)
    subst hd
    have hr : rs = [] := List.eq_nil_of_length_eq_zero (by omega)
    subst hr
    obtain ⟨lg, txs, fls, rxs⟩ := c
    simp only at hrx
    simp at hrx
    subst hrx
    rw [SPIDriverHAL.transfer]
    simp [transferFramesSpec_nil]
  | succ n ih =>
    intro data rs hn hrs c htx hrx
    by_cases h0 : data.length = 0
    · have hd : data = [] := List.eq_nil_of_length_eq_zero h0
      subst hd
      have hr : rs = [] := List.eq_nil_of_length_eq_zero (by omega)
      subst hr
      obtain ⟨lg, txs, fls, rxs⟩ := c
      simp only at hrx
      simp at hrx
      subst hrx
      rw [SPIDriverHAL.transfer]
      simp [transferFramesSpec_nil]
    · rw [SPIDriverHAL.transfer, dif_neg h0]
      have htake : (data.take 64).length ≤ 64 := by rw [List.length_take]; omega
      have htk0 : ¬ (data.take 64).length = 0 := by
        rw [List.length_take]
        omega
      have hlen : (rs.take 64).length = (data.take 64).length := by
        rw [List.length_take, List.length_take]
        omega
      have hrx64 : c.rxs = (rs.take 64).map Except.ok ++ (rs.drop 64).map Except.ok := by
        rw [← List.map_append, List.take_append_drop]
        exact hrx
      simp only [take_min64, drop_min64]
      simp only [transfer_spec c (data.take 64) (rs.take 64) ((rs.drop 64).map Except.ok)
        htx hrx64 htake hlen, if_neg htk0]
      rw [ih (data.drop 64) (rs.drop 64) (by simp only [List.length_drop]; omega)
        (by simp only [List.length_drop]; omega) _ (by simpa using htx) (by simp)]
      rw [transferFramesSpec_cons data rs h0 hrs]
      simp

theorem halWrite_stop {ε ρ : Type} (data : List Byte) (c : Channel ε ρ) (e : Error ε ρ)
    (c1 : Channel ε ρ) (h0 : ¬ data.length = 0)
    (hfail : SPIDriver.write c (data.take 64) = (Except.error e, c1)) :
    SPIDriverHAL.write c data = (Except.error e, c1) := by
  rw [SPIDriverHAL.write, dif_neg h0]
  simp only [take_min64, drop_min64]
  simp only [hfail]

theorem halTransfer_stop {ε ρ : Type} (data : List Byte) (c : Channel ε ρ) (e : Error ε ρ)
    (c1 : Channel ε ρ) (buf : List Byte) (h0 : ¬ data.length = 0)
    (hfail : SPIDriver.transfer c (data.take 64) = (Except.error e, c1, buf)) :
    SPIDriverHAL.transfer c data = (Except.error e, c1, buf ++ data.drop 64) := by
  rw [SPIDriverHAL.transfer, dif_neg h0]
  simp only [take_min64, drop_min64]
  simp only [hfail]

set_option maxRecDepth 8000 in
/-- C4: the adapter-trait layer's SPI `write` and `transfer` split any
buffer into successive chunks of at most 64 bytes and issue one engine
call per chunk in order (the wire carries exactly the concatenation of
the per-chunk frames, and the chunks concatenate back to the buffer),
stopping at the first failing chunk: for both `write` and `transfer`,
when the current chunk's engine call fails, that exact error and
channel state are returned at once and no further engine call is
attempted (for `transfer` the later chunks of the buffer stay
untouched).  In particular a 130-byte buffer issues exactly 3 frames of
lengths 64, 64, 2 in that order, and when the second frame's engine
call fails — shown concretely for both a chunked `write` and a chunked
`transfer` of 130 bytes — the wire carries frame 1 only and nothing of
the second or third frame. -/
theorem C4_hal_chunking {ε ρ : Type} :
    (∀ (data : List Byte) (c : Channel ε ρ), c.txs = [] →
      SPIDriverHAL.write c data =
        (Except.ok (), { c with log := c.log ++ writeFramesSpec data })) ∧
    (∀ (data rs : List Byte) (c : Channel ε ρ), rs.length = data.length →
      c.txs = [] → c.rxs = rs.map Except.ok →
      SPIDriverHAL.transfer c data =
        (Except.ok (),
         { c with log := c.log ++ transferFramesSpec data rs, rxs := [] }, rs)) ∧
    (∀ (data : List Byte), (chunksSpec data).flatten = data ∧
      ∀ ch ∈ chunksSpec data, ch ≠ [] ∧ ch.length ≤ 64) ∧
    (chunksSpec (List.replicate 130 7)).map List.length = [64, 64, 2] ∧
    (∀ (data : List Byte) (c : Channel ε ρ) (e : Error ε ρ) (c1 : Channel ε ρ),
      ¬ data.length = 0 →
      SPIDriver.write c (data.take 64) = (Except.error e, c1) →
      SPIDriverHAL.write c data = (Except.error e, c1)) ∧
    (∀ (data : List Byte) (c : Channel ε ρ) (e : Error ε ρ) (c1 : Channel ε ρ)
        (buf : List Byte),
      ¬ data.length = 0 →
      SPIDriver.transfer c (data.take 64) = (Except.error e, c1, buf) →
      SPIDriverHAL.transfer c data = (Except.error e, c1, buf ++ data.drop 64)) ∧
    SPIDriverHAL.write
        (⟨[], List.replicate 65 none ++ [some ()], [], []⟩ : Channel Unit Unit)
        (List.replicate 130 7) =
      (Except.error (Error.Write ()),
       ⟨Ev.tx 255 :: List.replicate 64 (Ev.tx 7), [], [], []⟩) ∧
    SPIDriverHAL.transfer
        (⟨[], List.replicate 65 none ++ [some ()], [],
          List.replicate 64 (Except.ok 9)⟩ : Channel Unit Unit)
        (List.replicate 130 7) =
      (Except.error (Error.Write ()),
       ⟨Ev.tx 191 :: (List.replicate 64 (Ev.tx 7) ++ List.replicate 64 (Ev.rx 9)),
        [], [], []⟩,
       List.replicate 64 9 ++ List.replicate 66 7) := by
  refine ⟨fun data c htx => halWrite_frames data (Nat.le_refl _) c htx,
    fun data rs c hrs htx hrx =>
      halTransfer_frames data rs (Nat.le_refl _) hrs c htx hrx,
    fun data => ⟨chunksSpec_flatten data (Nat.le_refl _),
      chunksSpec_shape data (Nat.le_refl _)⟩, ?_,
    fun data c e c1 h0 hfail => halWrite_stop data c e c1 h0 hfail,
    fun data c e c1 buf h0 hfail => halTransfer_stop data c e c1 buf h0 hfail,
    ?_, ?_⟩
  · rw [chunksSpec_cons _ (by simp), chunksSpec_cons _ (by simp),
      chunksSpec_cons _ (by simp), chunksSpec]
    simp
  · have h1 : SPIDriver.write
        (⟨[], List.replicate 65 none ++ [some ()], [], []⟩ : Channel Unit Unit)
        ((List.replicate 130 7).take 64) =
        (Except.ok (),
         ⟨Ev.tx 255 :: List.replicate 64 (Ev.tx 7), [some ()], [], []⟩) := by decide
    have h2 : SPIDriver.write
        (⟨Ev.tx 255 :: List.replicate 64 (Ev.tx 7), [some ()], [], []⟩ : Channel Unit Unit)
        (((List.replicate 130 7).drop 64).take 64) =
        (Except.error (Error.Write ()),
         ⟨Ev.tx 255 :: List.replicate 64 (Ev.tx 7), [], [], []⟩) := by decide
    rw [SPIDriverHAL.write, dif_neg (by decide)]
    simp only [take_min64, drop_min64]
    simp only [h1]
    rw [SPIDriverHAL.write, dif_neg (by decide)]
    simp only [take_min64, drop_min64]
    simp only [h2]
  · have t1 : SPIDriver.transfer
        (⟨[], List.replicate 65 none ++ [some ()], [],
          List.replicate 64 (Except.ok 9)⟩ : Channel Unit Unit)
        ((List.replicate 130 7).take 64) =
        (Except.ok (List.replicate 64 9),
         ⟨Ev.tx 191 :: (List.replicate 64 (Ev.tx 7) ++ List.replicate 64 (Ev.rx 9)),
          [some ()], [], []⟩,
         List.replicate 64 9) := by decide
    have t2 : SPIDriver.transfer
        (⟨Ev.tx 191 :: (List.replicate 64 (Ev.tx 7) ++ List.replicate 64 (Ev.rx 9)),
          [some ()], [], []⟩ : Channel Unit Unit)
        (((List.replicate 130 7).drop 64).take 64) =
        (Except.error (Error.Write ()),
         ⟨Ev.tx 191 :: (List.replicate 64 (Ev.tx 7) ++ List.replicate 64 (Ev.rx 9)),
          [], [], []⟩,
         List.replicate 64 7) := by decide
    rw [SPIDriverHAL.transfer, dif_neg (by decide)]
    simp only [take_min64, drop_min64]
    simp only [t1]
    rw [SPIDriverHAL.transfer, dif_neg (by decide)]
    simp only [take_min64, drop_min64]
    simp only [t2]
    decide

theorem C4_witness :
    (SPIDriverHAL.write (⟨[], [], [], []⟩ : Channel Unit Unit) [1, 2] =
      (Except.ok (), ⟨writeFramesSpec [1, 2], [], [], []⟩)) ∧
    (SPIDriverHAL.transfer (⟨[], [], [], [Except.ok 8, Except.ok 9]⟩ : Channel Unit Unit)
        [1, 2] =
      (Except.ok (), ⟨transferFramesSpec [1, 2] [8, 9], [], [], []⟩, [8, 9])) ∧
    (SPIDriverHAL.write (⟨[], [some ()], [], []⟩ : Channel Unit Unit) [1, 2] =
      (Except.error (Error.Write ()), ⟨[], [], [], []⟩)) ∧
    (SPIDriverHAL.transfer (⟨[], [some ()], [], []⟩ : Channel Unit Unit) [1, 2] =
      (Except.error (Error.Write ()), ⟨[], [], [], []⟩,
       [1, 2] ++ ([1, 2] : List Byte).drop 64)) := by
  refine ⟨?_, ?_, ?_, ?_⟩
  · have h := (@C4_hal_chunking Unit Unit).1 [1, 2] ⟨[], [], [], []⟩ rfl
    simpa using h
  · have h := (@C4_hal_chunking Unit Unit).2.1 [1, 2] [8, 9]
      ⟨[], [], [], [Except.ok 8, Except.ok 9]⟩ rfl rfl rfl
    simpa using h
  · exact (@C4_hal_chunking Unit Unit).2.2.2.2.1 [1, 2] ⟨[], [some ()], [], []⟩
      (Error.Write ()) ⟨[], [], [], []⟩ (by decide) (by decide)
  · exact (@C4_hal_chunking Unit Unit).2.2.2.2.2.1 [1, 2] ⟨[], [some ()], [], []⟩
      (Error.Write ()) ⟨[], [], [], []⟩ [1, 2] (by decide) (by decide)

/-- C5: refuted by the code as it stands: the chip-select capability's
`set_low` and `set_high` (`gpiov2::OutputPin for CS` in
`spidriver-hal/src/hal.rs`) are `panic!("not yet")` stubs that emit
nothing on the wire, whereas a direct `select()` emits `'s'` and a
flush.  One layer down, `Comms::set_cs` does implement the claimed
polarity exactly (low asserts `select`, high gives `unselect`), showing
the stubs are an unfinished slip rather than a different design. -/
theorem C5_cs_pin_stub :
    CS.set_low (⟨[], [], [], []⟩ : Channel Unit Unit) = PinOutcome.panicked "not yet" ∧
    CS.set_high (⟨[], [], [], []⟩ : Channel Unit Unit) = PinOutcome.panicked "not yet" ∧
    SPIDriver.select (⟨[], [], [], []⟩ : Channel Unit Unit) =
      (Except.ok (), ⟨[Ev.tx 115, Ev.flush], [], [], []⟩) ∧
    (∀ (c : Channel Unit Unit),
      SPIDriverHAL.set_cs c false = SPIDriver.select c ∧
      SPIDriverHAL.set_cs c true = SPIDriver.unselect c) :=
  ⟨rfl, rfl, by decide, fun _c => ⟨rfl, rfl⟩⟩

end SpiDriver
